import Mathlib

/-
Shallow embedding of the SQLite forensic recovery core (extract.py):
varint decoder, serial-type decoder, record decoder, page parser,
free-list walker and the recovery driver's header validation.

Bytes are modelled as `List Nat` (each element a byte value 0..255);
Python exceptions are modelled with `Except PyErr`; Python's unbounded
integers are `Nat`/`Int`, so no modular truncation is applied anywhere
the source applies none.  IEEE-754 doubles are represented by their raw
8-byte big-endian bit pattern, since the core never computes with them.
-/

namespace SqliteExtract

/-- Kinds of Python exception the decoder can raise. -/
inductive PyErr
  | indexError
  | structError
  | zeroDivision
  deriving DecidableEq, Repr

deriving instance DecidableEq for Except

abbrev Bytes := List Nat

/-- Python slice `data[start : start + len]` for a non-negative start:
clipped to the available bytes, never an error. -/
def pySlice (data : Bytes) (start len : Nat) : Bytes :=
  (data.drop start).take len

/-- Big-endian unsigned interpretation of a byte string
(`struct.unpack` of unsigned fields, `int.from_bytes(…, 'big')`). -/
def beNat (bs : Bytes) : Nat :=
  bs.foldl (fun acc b => acc * 256 + b) 0

/-- Two's-complement reading of an unsigned `w`-bit value. -/
def toSigned (w : Nat) (u : Nat) : Int :=
  if u < 2 ^ (w - 1) then (u : Int) else (u : Int) - 2 ^ w

/-- Python `int.from_bytes(bs, 'big', signed=True)`: interprets however
many bytes are present as a signed big-endian integer. -/
def intFromBytesSigned (bs : Bytes) : Int :=
  toSigned (8 * bs.length) (beNat bs)

/-- Loop body of `read_varint`: `k` counts the remaining iterations of
`for i in range(9)` (so `k + i = 9`), `i` the current byte index and
`value` the accumulator.  `(value << 7) | b` is written `value * 128 + b`
(equal for `b < 128`) and `b & 0x7F` is `b % 128`. -/
def read_varintLoop (data : Bytes) (offset : Nat) : Nat → Nat → Nat → Except PyErr (Nat × Nat)
  | 0, _, value => .ok (value, 9)
  | k + 1, i, value =>
    if data.length ≤ offset + i then
      .error .indexError
    else
      let byte := data.getD (offset + i) 0
      if byte < 0x80 then
        .ok (value * 128 + byte, i + 1)
      else
        read_varintLoop data offset k (i + 1) (value * 128 + byte % 128)

/-- `read_varint(data, offset)`: SQLite varint as the source decodes it. -/
def read_varint (data : Bytes) (offset : Nat) : Except PyErr (Nat × Nat) :=
  read_varintLoop data offset 9 0 0

/-- A recovered column value.  Doubles keep their raw byte pattern. -/
inductive Value
  | null
  | int (v : Int)
  | float (raw : Bytes)
  | blob (b : Bytes)
  | text (cps : List Nat)
  deriving DecidableEq, Repr

/-- State of the UTF-8 decoder: either at a sequence boundary, or
expecting `k` more continuation bytes, with `acc` the bits gathered so
far and `[lo, hi]` the admissible range of the next byte (strict UTF-8
restricts the first continuation byte after `E0`, `ED`, `F0`, `F4`). -/
inductive Utf8State
  | start
  | need (k acc lo hi : Nat)
  deriving DecidableEq, Repr

/-- Dispatch on a byte at a sequence boundary: ASCII emits itself; a
valid leader opens a multi-byte sequence; anything else is a maximal
invalid subpart of length one, replaced by U+FFFD. -/
def utf8Start (b : Nat) : List Nat × Utf8State :=
  if b < 0x80 then ([b], .start)
  else if 0xC2 ≤ b ∧ b ≤ 0xDF then ([], .need 1 (b - 0xC0) 0x80 0xBF)
  else if 0xE0 ≤ b ∧ b ≤ 0xEF then
    ([], .need 2 (b - 0xE0) (if b = 0xE0 then 0xA0 else 0x80) (if b = 0xED then 0x9F else 0xBF))
  else if 0xF0 ≤ b ∧ b ≤ 0xF4 then
    ([], .need 3 (b - 0xF0) (if b = 0xF0 then 0x90 else 0x80) (if b = 0xF4 then 0x8F else 0xBF))
  else ([0xFFFD], .start)

/-- One-byte-per-step UTF-8 decoder with replacement.  An out-of-range
byte ends the current (invalid) sequence with one U+FFFD and is then
reconsidered as a sequence start, matching the maximal-subpart rule of
Python's `errors='replace'`; input ending mid-sequence yields one
U+FFFD. -/
def utf8Run : Utf8State → List Nat → List Nat
  | .start, [] => []
  | .need _ _ _ _, [] => [0xFFFD]
  | .start, b :: rest =>
    let s := utf8Start b
    s.1 ++ utf8Run s.2 rest
  | .need k acc lo hi, b :: rest =>
    if lo ≤ b ∧ b ≤ hi then
      if k = 1 then (acc * 64 + (b - 0x80)) :: utf8Run .start rest
      else utf8Run (.need (k - 1) (acc * 64 + (b - 0x80)) 0x80 0xBF) rest
    else
      let s := utf8Start b
      0xFFFD :: (s.1 ++ utf8Run s.2 rest)

/-- Python `bytes.decode('utf-8', errors='replace')`, as a list of code
points: strict UTF-8 with invalid subparts replaced by U+FFFD, never
failing. -/
def decodeUtf8Replace (bs : List Nat) : List Nat :=
  utf8Run .start bs

/-- `parse_serial_type(data, offset, serial_type)`.  Branches appear in
source order.  The `struct.unpack` branches (codes 1, 2, 4, 6, 7) demand
an exact-length slice and raise `struct.error` otherwise; the
`int.from_bytes` branches (3, 5) and the blob/text slices accept
whatever bytes are available. -/
def parse_serial_type (data : Bytes) (offset : Nat) (serial_type : Nat) :
    Except PyErr (Value × Nat) :=
  if 12 ≤ serial_type ∧ serial_type % 2 = 0 then
    let length := (serial_type - 12) / 2
    .ok (.blob (pySlice data offset length), length)
  else if 13 ≤ serial_type ∧ serial_type % 2 = 1 then
    let length := (serial_type - 13) / 2
    .ok (.text (decodeUtf8Replace (pySlice data offset length)), length)
  else if serial_type = 0 then
    .ok (.null, 0)
  else if serial_type = 1 then
    let s := pySlice data offset 1
    if s.length = 1 then .ok (.int (toSigned 8 (beNat s)), 1) else .error .structError
  else if serial_type = 2 then
    let s := pySlice data offset 2
    if s.length = 2 then .ok (.int (toSigned 16 (beNat s)), 2) else .error .structError
  else if serial_type = 3 then
    .ok (.int (intFromBytesSigned (pySlice data offset 3)), 3)
  else if serial_type = 4 then
    let s := pySlice data offset 4
    if s.length = 4 then .ok (.int (toSigned 32 (beNat s)), 4) else .error .structError
  else if serial_type = 5 then
    .ok (.int (intFromBytesSigned (pySlice data offset 6)), 6)
  else if serial_type = 6 then
    let s := pySlice data offset 8
    if s.length = 8 then .ok (.int (toSigned 64 (beNat s)), 8) else .error .structError
  else if serial_type = 7 then
    let s := pySlice data offset 8
    if s.length = 8 then .ok (.float s, 8) else .error .structError
  else if serial_type = 8 then
    .ok (.int 0, 0)
  else if serial_type = 9 then
    .ok (.int 1, 0)
  else
    .ok (.null, 0)

/-- The `while bytes_read < header_length` loop of `parse_record`,
reading serial-type varints.  `fuel` is an iteration budget: every
successful `read_varint` consumes at least one byte, so the loop runs at
most `header_length` times and the caller's budget of `header_length`
makes the fuel-0 case coincide with the loop exit (at fuel 0 the
invariant `fuel + bytes_read ≥ header_length` forces the guard false). -/
def readSerialTypesLoop (data : Bytes) (header_length : Nat) :
    Nat → Nat → Nat → Except PyErr (List Nat)
  | 0, _, _ => .ok []
  | fuel + 1, header_offset, bytes_read =>
    if bytes_read < header_length then
      match read_varint data header_offset with
      | .error e => .error e
      | .ok (serial_type, n) =>
        match readSerialTypesLoop data header_length fuel (header_offset + n) (bytes_read + n) with
        | .error e => .error e
        | .ok rest => .ok (serial_type :: rest)
    else .ok []

/-- Body of the value loop of `parse_record`: decode one value per
serial type, advancing the cursor by each reported length. -/
def decodeValues (data : Bytes) : Nat → List Nat → Except PyErr (List Value)
  | _, [] => .ok []
  | value_offset, serial_type :: rest =>
    match parse_serial_type data value_offset serial_type with
    | .error e => .error e
    | .ok (v, length) =>
      match decodeValues data (value_offset + length) rest with
      | .error e => .error e
      | .ok vs => .ok (v :: vs)

/-- The `try` body of `parse_record`: `.ok none` is the explicit
`return None` on `header_length > payload_length`; `.error` is an
uncaught exception inside the body. -/
def parse_recordAux (data : Bytes) (offset payload_length : Nat) :
    Except PyErr (Option (List Value)) :=
  match read_varint data offset with
  | .error e => .error e
  | .ok (header_length, n) =>
    if payload_length < header_length then .ok none
    else
      match readSerialTypesLoop data header_length header_length (offset + n) n with
      | .error e => .error e
      | .ok serial_types =>
        match decodeValues data (offset + header_length) serial_types with
        | .error e => .error e
        | .ok values => .ok (some values)

/-- `parse_record(data, offset, payload_length)`: the `except` clause
maps every fault to `None`. -/
def parse_record (data : Bytes) (offset payload_length : Nat) : Option (List Value) :=
  match parse_recordAux data offset payload_length with
  | .ok r => r
  | .error _ => none

/-- Tail of a cell read: the rowid varint (value discarded) followed by
`payload_length` bytes of payload handed to `parse_record`. -/
def parseCellTail (page_data : Bytes) (o payload_length : Nat) :
    Except PyErr (Option (List Value)) :=
  match read_varint page_data o with
  | .error e => .error e
  | .ok (_, n) =>
    let payload := pySlice page_data (o + n) payload_length
    .ok (parse_record payload 0 payload_length)

/-- One iteration of the cell loop of `parse_page` (the `try` body):
payload-length varint, an extra left-child varint on interior (0x05)
pages whose value is discarded, then the rowid-and-payload tail. -/
def parseCell (page_data : Bytes) (page_type cell_pointer : Nat) :
    Except PyErr (Option (List Value)) :=
  match read_varint page_data cell_pointer with
  | .error e => .error e
  | .ok (payload_length, n1) =>
    if page_type = 0x05 then
      match read_varint page_data (cell_pointer + n1) with
      | .error e => .error e
      | .ok (_, n2) => parseCellTail page_data (cell_pointer + n1 + n2) payload_length
    else parseCellTail page_data (cell_pointer + n1) payload_length

/-- What one cell contributes to the records list: nothing when the
cell raises (the `except … continue`) and nothing when the record is
falsy (`if record:` rejects both `None` and the empty list). -/
def emitCell (page_data : Bytes) (page_type cell_pointer : Nat) : Option (List Value) :=
  match parseCell page_data page_type cell_pointer with
  | .ok (some (v :: vs)) => some (v :: vs)
  | _ => none

/-- The cell-pointer collection loop: slots whose two bytes do not fit
in the page are skipped. -/
def collectPointers (page_data : Bytes) (header_size num_cells : Nat) : List Nat :=
  (List.range num_cells).filterMap fun i =>
    let ptr_offset := header_size + i * 2
    if page_data.length < ptr_offset + 2 then none
    else some (beNat (pySlice page_data ptr_offset 2))

/-- `parse_page` on an already-sliced page.  Note the cell-count read
`struct.unpack('>H', page_data[3:5])` sits outside the `try`, so on a
page of length 1–4 whose first byte is 0x0D or 0x05 it raises out of
the function. -/
def parsePageData (page_data : Bytes) : Except PyErr (List (List Value)) :=
  if page_data.length = 0 then .ok []
  else
    let page_type := page_data.headD 0
    if ¬(page_type = 0x0D ∨ page_type = 0x05) then .ok []
    else
      let slot := pySlice page_data 3 2
      if slot.length ≠ 2 then .error .structError
      else
        let num_cells := beNat slot
        let header_size := if page_type = 0x0D then 8 else 12
        let cell_pointers := collectPointers page_data header_size num_cells
        .ok (cell_pointers.filterMap (emitCell page_data page_type))

/-- `parse_page(data, page_number, page_size, records)`: returns the
records the call appends, or the exception it lets escape. -/
def parse_page (data : Bytes) (page_number page_size : Nat) :
    Except PyErr (List (List Value)) :=
  parsePageData (pySlice data (page_number * page_size) page_size)

/-- The leaf loop of `get_freelist_pages`: `i` is the loop index, the
second argument counts the remaining iterations of `for i in range(n)`.
Returns the appended page indices (`page_num - 1`, which can be `-1`)
and how much `pages_collected` grew. -/
def flLeafLoop (page_data : Bytes) : Nat → Nat → List Int × Nat
  | _, 0 => ([], 0)
  | i, k + 1 =>
    let offset := 8 + i * 4
    if page_data.length < offset + 4 then ([], 0)
    else
      let page_num := beNat (pySlice page_data offset 4)
      let r := flLeafLoop page_data (i + 1) k
      (((page_num : Int) - 1) :: r.1, r.2 + 1)

/-- The trunk-chain `while` loop of `get_freelist_pages`, made total by
an explicit iteration budget: `none` means the budget ran out with the
loop still running, which is how the non-terminating executions of the
source show up in the model. -/
def flLoop (data : Bytes) (page_size total : Nat) :
    Nat → Nat → Nat → List Int → Option (List Int)
  | 0, _, _, _ => none
  | fuel + 1, next_trunk, collected, acc =>
    if next_trunk = 0 ∨ total ≤ collected then some acc
    else
      let page_offset := (next_trunk - 1) * page_size
      if data.length < page_offset + page_size then some acc
      else
        let page_data := pySlice data page_offset page_size
        let acc1 := acc ++ [(next_trunk : Int) - 1]
        if page_data.length < 8 then some acc1
        else
          let next := beNat (pySlice page_data 0 4)
          let n := beNat (pySlice page_data 4 4)
          let leaves := flLeafLoop page_data 0 n
          flLoop data page_size total fuel next (collected + leaves.2) (acc1 ++ leaves.1)

/-- `get_freelist_pages(data, page_size, freelist_trunk_page,
total_freelist_pages)`, with an iteration budget. -/
def get_freelist_pages (data : Bytes) (page_size trunk total fuel : Nat) : Option (List Int) :=
  flLoop data page_size total fuel trunk 0 []

/-- The 16 magic bytes of a well-formed header. -/
def magicBytes : Bytes :=
  [0x53, 0x51, 0x4C, 0x69, 0x74, 0x65, 0x20, 0x66,
   0x6F, 0x72, 0x6D, 0x61, 0x74, 0x20, 0x33, 0x00]

/-- The linear page sweep of the driver: the first uncaught exception
from `parse_page` aborts the run. -/
def sweepPages (data : Bytes) (page_size : Nat) : List Nat → Except PyErr (List (List Value))
  | [] => .ok []
  | p :: ps =>
    match parse_page data p page_size with
    | .error e => .error e
    | .ok rs =>
      match sweepPages data page_size ps with
      | .error e => .error e
      | .ok rest => .ok (rs ++ rest)

/-- The free-list page sweep.  A free-list leaf recorded as page number
0 yields index -1; Python then slices `data[-page_size : 0]`, which is
empty, so the page parses to no records. -/
def sweepFree (data : Bytes) (page_size : Nat) : List Int → Except PyErr (List (List Value))
  | [] => .ok []
  | p :: ps =>
    match (if p < 0 then .ok [] else parse_page data p.toNat page_size) with
    | .error e => .error e
    | .ok rs =>
      match sweepFree data page_size ps with
      | .error e => .error e
      | .ok rest => .ok (rs ++ rest)

/-- How a run of `main` ends, after the input file has been read. -/
inductive MainOutcome
  | fatalShort
  | fatalMagic
  | diverged
  | crashed (e : PyErr)
  | noRecords
  | ok (records : List (List Value))
  deriving DecidableEq, Repr

/-- The core of `main` from the header checks onward: header
validation, page-size decoding (1 means 65536), free-list walk (budgeted
by `fuel`), linear sweep, free-list sweep and the empty-result check.
A header page size of 0 makes `len(data) // page_size` raise
`ZeroDivisionError`. -/
def mainRun (fuel : Nat) (data : Bytes) : MainOutcome :=
  if data.length < 100 then .fatalShort
  else if pySlice data 0 16 ≠ magicBytes then .fatalMagic
  else
    let ps0 := beNat (pySlice data 16 2)
    let page_size := if ps0 = 1 then 65536 else ps0
    let trunk := beNat (pySlice data 32 4)
    let total := beNat (pySlice data 36 4)
    match (if trunk ≠ 0 then get_freelist_pages data page_size trunk total fuel
           else some []) with
    | none => .diverged
    | some freelist_pages =>
      if page_size = 0 then .crashed .zeroDivision
      else
        let num_pages := data.length / page_size
        match sweepPages data page_size (List.range num_pages) with
        | .error e => .crashed e
        | .ok recs1 =>
          match sweepFree data page_size freelist_pages with
          | .error e => .crashed e
          | .ok recs2 =>
            let records := recs1 ++ recs2
            if records.isEmpty then .noRecords else .ok records

/-- Modelled from the spec: the varint decoder of spec §4.1, against
which the source decoder is compared.  The first 8 bytes each contribute
their low 7 bits (high bit = continuation); a ninth byte, if reached,
contributes its full 8 bits; consumption stops at the first byte with
the high bit clear or after 9 bytes unconditionally; a missing next
byte fails. -/
def read_varintSpecLoop (data : Bytes) (offset : Nat) : Nat → Nat → Nat → Except PyErr (Nat × Nat)
  | 0, _, value => .ok (value, 9)
  | k + 1, i, value =>
    if data.length ≤ offset + i then
      .error .indexError
    else
      let byte := data.getD (offset + i) 0
      if i = 8 then .ok (value * 256 + byte, 9)
      else if byte < 0x80 then .ok (value * 128 + byte, i + 1)
      else read_varintSpecLoop data offset k (i + 1) (value * 128 + byte % 128)

/-- Modelled from the spec: entry point of the §4.1 varint decoder. -/
def read_varintSpec (data : Bytes) (offset : Nat) : Except PyErr (Nat × Nat) :=
  read_varintSpecLoop data offset 9 0 0

/-- Modelled from the spec: the interior-cell read of §4.4 step 5,
written straight-line in the spec's order, to be compared with the
source `parse_page` cell loop on 0x05 pages: a payload-length varint, a
varint treated as the left-child page number whose value is discarded,
a rowid varint whose value is discarded, then `payload_length` bytes of
payload handed to the record decoder. -/
def interiorCellSpec (page_data : Bytes) (cell_pointer : Nat) :
    Except PyErr (Option (List Value)) :=
  match read_varint page_data cell_pointer with
  | .error e => .error e
  | .ok (payload_length, n1) =>
    match read_varint page_data (cell_pointer + n1) with
    | .error e => .error e
    | .ok (_, n2) =>
      match read_varint page_data (cell_pointer + n1 + n2) with
      | .error e => .error e
      | .ok (_, n3) =>
        let payload := pySlice page_data (cell_pointer + n1 + n2 + n3) payload_length
        .ok (parse_record payload 0 payload_length)

/-- Big-endian encoding of `v` on exactly `w` bytes. -/
def encodeBE : Nat → Nat → Bytes
  | 0, _ => []
  | w + 1, v => encodeBE w (v / 256) ++ [v % 256]

/-- A Unicode scalar value: in range and not a surrogate. -/
def isScalar (c : Nat) : Bool :=
  decide (c < 0x110000 ∧ ¬(0xD800 ≤ c ∧ c ≤ 0xDFFF))

/-- Standard UTF-8 encoding of one scalar value. -/
def encodeChar (c : Nat) : List Nat :=
  if c < 0x80 then [c]
  else if c < 0x800 then [0xC0 + c / 64, 0x80 + c % 64]
  else if c < 0x10000 then
    [0xE0 + c / 4096, 0x80 + c / 64 % 64, 0x80 + c % 64]
  else
    [0xF0 + c / 262144, 0x80 + c / 4096 % 64, 0x80 + c / 64 % 64, 0x80 + c % 64]

/-- UTF-8 encoding of a sequence of scalar values. -/
def encodeUtf8 : List Nat → List Nat
  | [] => []
  | c :: cs => encodeChar c ++ encodeUtf8 cs

/-- Modelled from the spec: the number of body bytes the §3 table
declares for a serial-type code. -/
def serialLength (c : Nat) : Nat :=
  if 12 ≤ c ∧ c % 2 = 0 then (c - 12) / 2
  else if 13 ≤ c ∧ c % 2 = 1 then (c - 13) / 2
  else if c = 1 then 1
  else if c = 2 then 2
  else if c = 3 then 3
  else if c = 4 then 4
  else if c = 5 then 6
  else if c = 6 then 8
  else if c = 7 then 8
  else 0

/-- Modelled from the spec: which values inhabit the type a serial-type
code denotes in the §3 table (the claim's "every value of the
corresponding type").  Signed widths constrain the integer range; a
blob or double is its raw bytes; text is a sequence of scalar values
whose UTF-8 encoding has the declared length. -/
def wellTyped (c : Nat) (v : Value) : Bool :=
  if 12 ≤ c ∧ c % 2 = 0 then
    match v with
    | .blob bs => decide (c = 12 + 2 * bs.length) && bs.all (fun b => decide (b < 256))
    | _ => false
  else if 13 ≤ c ∧ c % 2 = 1 then
    match v with
    | .text cps => decide (c = 13 + 2 * (encodeUtf8 cps).length) && cps.all isScalar
    | _ => false
  else if c = 0 then decide (v = .null)
  else if c = 8 then decide (v = .int 0)
  else if c = 9 then decide (v = .int 1)
  else if c = 1 ∨ c = 2 ∨ c = 3 ∨ c = 4 ∨ c = 5 ∨ c = 6 then
    match v with
    | .int i => decide (-(2 ^ (8 * serialLength c - 1) : Int) ≤ i ∧ i < 2 ^ (8 * serialLength c - 1))
    | _ => false
  else if c = 7 then
    match v with
    | .float raw => decide (raw.length = 8) && raw.all (fun b => decide (b < 256))
    | _ => false
  else false

/-- Modelled from the spec: the on-disk byte form of a value under a
serial-type code, per the §3 table (two's-complement big-endian for the
signed widths, UTF-8 for text, raw bytes for blobs and doubles). -/
def serialEncode (c : Nat) (v : Value) : Bytes :=
  match v with
  | .null => []
  | .int i =>
    if c = 8 ∨ c = 9 then []
    else (encodeBE (serialLength c) (i % ((2 : Int) ^ (8 * serialLength c))).toNat)
  | .float raw => raw
  | .blob bs => bs
  | .text cps => encodeUtf8 cps

/-- The two byte strings have equal length and agree everywhere outside
the half-open interval `[a, b)`. -/
def agreeOutside (d₁ d₂ : Bytes) (a b : Nat) : Prop :=
  d₁.length = d₂.length ∧
    ∀ k, k < d₁.length → k < a ∨ b ≤ k → d₁.getD k 0 = d₂.getD k 0

instance (d₁ d₂ : Bytes) (a b : Nat) : Decidable (agreeOutside d₁ d₂ a b) := by
  unfold agreeOutside; infer_instance

/-- First byte offset past everything `parseCellTail` reads from
offset `o`: the rowid varint plus the payload slice; on a varint fault,
past the at most nine bytes the failing read inspected. -/
def tailEnd (page_data : Bytes) (o payload_length : Nat) : Nat :=
  match read_varint page_data o with
  | .error _ => o + 9
  | .ok (_, n) => o + n + payload_length

/-- First byte offset past everything the cell loop reads for the cell
at `cell_pointer`: the varints actually consumed plus the payload
slice; on a varint fault, past the at most nine bytes the failing read
inspected. -/
def cellEnd (page_data : Bytes) (page_type cell_pointer : Nat) : Nat :=
  match read_varint page_data cell_pointer with
  | .error _ => cell_pointer + 9
  | .ok (payload_length, n1) =>
    if page_type = 0x05 then
      match read_varint page_data (cell_pointer + n1) with
      | .error _ => cell_pointer + n1 + 9
      | .ok (_, n2) => tailEnd page_data (cell_pointer + n1 + n2) payload_length
    else tailEnd page_data (cell_pointer + n1) payload_length

/-- The page-type byte `parse_page` classifies a page by. -/
def pageType (page_data : Bytes) : Nat := page_data.headD 0

/-- Cell-pointer array start: 8 on table-leaf pages, 12 on interior. -/
def headerSize (page_data : Bytes) : Nat := if pageType page_data = 0x0D then 8 else 12

/-- The cell count read from bytes 3..5 of the page. -/
def numCells (page_data : Bytes) : Nat := beNat (pySlice page_data 3 2)

/-- The cell pointers `parse_page` walks on this page. -/
def pagePointers (page_data : Bytes) : List Nat :=
  collectPointers page_data (headerSize page_data) (numCells page_data)

/-- A 32-byte image: two 16-byte free-list trunk pages pointing at each
other, each declaring zero leaf pages. -/
def cycleImage : Bytes :=
  [0, 0, 0, 2, 0, 0, 0, 0, 0, 0, 0, 0, 0, 0, 0, 0,
   0, 0, 0, 1, 0, 0, 0, 0, 0, 0, 0, 0, 0, 0, 0, 0]

/-- A 22-byte table-leaf page with two cells: cell 0 at offset 12 holds
the one-column record `(5)`, cell 1 at offset 17 the record `(7)`. -/
def twoCellPage : Bytes :=
  [0x0D, 0, 0, 0, 2, 0, 0, 0, 0, 12, 0, 17, 3, 0, 2, 1, 5, 3, 0, 2, 1, 7]

/-- `twoCellPage` with the body byte of cell 1 (offset 21) overwritten. -/
def twoCellPageCorrupt : Bytes :=
  [0x0D, 0, 0, 0, 2, 0, 0, 0, 0, 12, 0, 17, 3, 0, 2, 1, 5, 3, 0, 2, 1, 200]


theorem read_varintLoop_ok_bounds (d : Bytes) (o : Nat) :
    ∀ k i value v n, k + i = 9 →
      read_varintLoop d o k i value = .ok (v, n) → (i < n ∨ n = 9) ∧ n ≤ 9 := by
  intro k
  induction k with
  | zero =>
    intro i value v n hki h
    simp only [read_varintLoop, Except.ok.injEq, Prod.mk.injEq] at h
    omega
  | succ k ih =>
    intro i value v n hki h
    simp only [read_varintLoop] at h
    by_cases hob : d.length ≤ o + i
    · rw [if_pos hob] at h
      exact absurd h (by simp)
    · rw [if_neg hob] at h
      by_cases hlt : d.getD (o + i) 0 < 0x80
      · rw [if_pos hlt] at h
        simp only [Except.ok.injEq, Prod.mk.injEq] at h
        omega
      · rw [if_neg hlt] at h
        have := ih (i + 1) (value * 128 + d.getD (o + i) 0 % 128) v n (by omega) h
        omega

theorem read_varint_ok_bounds (d : Bytes) (o v n : Nat)
    (h : read_varint d o = .ok (v, n)) : 1 ≤ n ∧ n ≤ 9 := by
  have := read_varintLoop_ok_bounds d o 9 0 0 v n (by omega) h
  omega

/-- C1: the claim says the varint decoder gives a ninth byte its full 8
bits.  On nine continuation-flagged bytes the source decoder
(`read_varint`) returns 127 — it shifts by 7 and masks the ninth byte's
high bit — while the decoder the spec describes (`read_varintSpec`)
returns 255. -/
theorem c1_varint_ninth_byte_divergence :
    read_varint [0x80, 0x80, 0x80, 0x80, 0x80, 0x80, 0x80, 0x80, 0xFF] 0 = .ok (127, 9) ∧
      read_varintSpec [0x80, 0x80, 0x80, 0x80, 0x80, 0x80, 0x80, 0x80, 0xFF] 0 = .ok (255, 9) := by
  exact ⟨by decide, by decide⟩

/-- C2: the claim says no fault propagates out of the page parser.  On
a 4-byte page slice whose first byte is 0x0D, the cell-count read
`struct.unpack('>H', page_data[3:5])` — which sits outside the `try` —
raises `struct.error` out of `parse_page`. -/
theorem c2_page_parser_fault_escapes :
    parse_page [0x0D, 0, 0, 0] 0 4 = .error .structError := by
  decide

/-- C3: the claim says the declared total bounds the trunk-chain
iterations, so the walker terminates even on cycles.  On a cycle of two
trunk pages that declare zero leaves, `pages_collected` never grows and
the walk runs forever: no iteration budget suffices. -/
theorem c3_freelist_walker_diverges :
    ∀ fuel, get_freelist_pages cycleImage 16 1 1 fuel = none := by
  have key : ∀ fuel, ∀ acc : List Int,
      flLoop cycleImage 16 1 fuel 1 0 acc = none ∧
        flLoop cycleImage 16 1 fuel 2 0 acc = none := by
    intro fuel
    induction fuel with
    | zero => intro acc; exact ⟨rfl, rfl⟩
    | succ fuel ih =>
      intro acc
      constructor
      · show flLoop cycleImage 16 1 fuel 2 (0 + 0) ((acc ++ [(1 : Int) - 1]) ++ []) = none
        exact (ih _).2
      · show flLoop cycleImage 16 1 fuel 1 (0 + 0) ((acc ++ [(2 : Int) - 1]) ++ []) = none
        exact (ih _).1
  intro fuel
  exact (key fuel []).1

/-- C5: the record decoder returns nothing when the header-length
varint exceeds the declared payload length, and any fault inside the
`try` body (modelled by `parse_recordAux` returning an error) is
silently mapped to nothing. -/
theorem c5_record_rejection :
    (∀ data offset payload_length header_length n,
        read_varint data offset = .ok (header_length, n) →
        payload_length < header_length →
        parse_record data offset payload_length = none) ∧
      (∀ data offset payload_length e,
        parse_recordAux data offset payload_length = .error e →
        parse_record data offset payload_length = none) := by
  constructor
  · intro data o pl hl n hv hlt
    unfold parse_record parse_recordAux
    rw [hv]
    show (match (if pl < hl then (.ok none : Except PyErr (Option (List Value)))
                 else _) with
          | .ok r => r
          | .error _ => none) = none
    rw [if_pos hlt]
  · intro data o pl e he
    unfold parse_record
    rw [he]

/-- Witness for C5 at concrete inputs: header length 2 exceeds payload
length 1, and a varint fault inside the body, both rejected as `none`. -/
theorem c5_record_rejection_witness :
    read_varint [2] 0 = .ok (2, 1) ∧ 1 < 2 ∧ parse_record [2] 0 1 = none ∧
      parse_recordAux ([] : Bytes) 0 0 = .error .indexError ∧
      parse_record ([] : Bytes) 0 0 = none := by
  refine ⟨by decide, by decide, ?_, by decide, ?_⟩
  · exact c5_record_rejection.1 [2] 0 1 2 1 (by decide) (by decide)
  · exact c5_record_rejection.2 [] 0 0 .indexError (by decide)

/-- C7: inputs shorter than 100 bytes, or whose first 16 bytes are not
the magic, make the driver exit on one of the two fatal header checks;
neither outcome carries records. -/
theorem c7_header_validation (data : Bytes) (fuel : Nat)
    (h : data.length < 100 ∨ pySlice data 0 16 ≠ magicBytes) :
    mainRun fuel data = .fatalShort ∨ mainRun fuel data = .fatalMagic := by
  by_cases h1 : data.length < 100
  · left
    simp [mainRun, h1]
  · right
    have h2 : pySlice data 0 16 ≠ magicBytes := h.resolve_left h1
    simp [mainRun, h1, h2]

/-- Witness for C7: the empty input is fatally rejected. -/
theorem c7_header_validation_witness :
    (([] : Bytes).length < 100 ∨ pySlice ([] : Bytes) 0 16 ≠ magicBytes) ∧
      (mainRun 0 ([] : Bytes) = .fatalShort ∨ mainRun 0 ([] : Bytes) = .fatalMagic) :=
  ⟨Or.inl (by decide), c7_header_validation [] 0 (Or.inl (by decide))⟩

/-- C8: on a table-interior (0x05) page the source reads each cell with
the same varint sequence as a leaf cell — payload-length varint,
left-child varint whose value is discarded, rowid varint whose value is
discarded, then `payload_length` bytes handed to the record decoder —
which is exactly the spec-side `interiorCellSpec`. -/
theorem c8_interior_cells_read_like_leaves :
    ∀ page_data cell_pointer,
      parseCell page_data 0x05 cell_pointer = interiorCellSpec page_data cell_pointer := by
  intro pd p
  unfold parseCell interiorCellSpec parseCellTail
  rfl

theorem emitCell_some_ne_nil (pd : Bytes) (pt p : Nat) (r : List Value)
    (hp : emitCell pd pt p = some r) : r ≠ [] := by
  unfold emitCell at hp
  split at hp
  · cases hp
    simp
  · exact absurd hp (by simp)

/-- C10: `if record:` is Python truthiness, so a successfully decoded
record with zero columns is never appended: every record a page parse
returns is non-empty. -/
theorem c10_no_empty_tuples :
    ∀ data page_number page_size records,
      parse_page data page_number page_size = .ok records →
      ∀ r ∈ records, r ≠ [] := by
  intro data pn ps records h r hr
  simp only [parse_page, parsePageData] at h
  split_ifs at h with h1 h2 h3 h4 <;>
    first
      | exact Except.noConfusion h
      | (cases h
         first
           | cases hr
           | (obtain ⟨p, _, hp⟩ := List.mem_filterMap.mp hr
              exact emitCell_some_ne_nil _ _ _ _ hp))

/-- Witness for C10: a concrete two-cell page parse, with the claim
applied to its first record. -/
theorem c10_no_empty_tuples_witness : ([Value.int 5] : List Value) ≠ [] :=
  c10_no_empty_tuples twoCellPage 0 22 [[Value.int 5], [Value.int 7]] (by decide)
    [Value.int 5] (by decide)

theorem pySlice_length (d : Bytes) (o L : Nat) :
    (pySlice d o L).length = min L (d.length - o) := by
  simp [pySlice]

/-- Result shape of the exact-width `struct.unpack` branches of
`parse_serial_type`: they succeed precisely when `k` bytes remain. -/
theorem structBranch_ok_iff (d : Bytes) (o k : Nat) (f : Bytes → Value) (hk : 0 < k) :
    (∃ v n, (if (pySlice d o k).length = k
              then (.ok (f (pySlice d o k), k) : Except PyErr (Value × Nat))
              else .error .structError) = .ok (v, n)) ↔
      o + k ≤ d.length := by
  rw [pySlice_length]
  split_ifs with hc
  · constructor
    · intro _
      omega
    · intro _
      exact ⟨_, _, rfl⟩
  · constructor
    · rintro ⟨v, n, hv⟩
      exact hv.elim
    · intro hle
      exact absurd (by omega : min k (d.length - o) = k) hc

/-- C4 counterexample: the claim says the serial-type decoder never
fails, but on serial type 1 with no bytes remaining `struct.unpack('>b')`
raises `struct.error`. -/
theorem c4_serial_decoder_fails_counterexample :
    parse_serial_type ([] : Bytes) 0 1 = .error .structError := by
  decide

/-- C4 as amended: the decoder never fails except on the exact-width
`struct.unpack` codes 1, 2, 4, 6, 7, which succeed exactly when the
declared number of bytes remains; on every other code out-of-bounds
reads truncate silently, and text is decoded with replacement
substitution applied to whatever bytes are available. -/
theorem c4_serial_decoder_totality :
    ∀ data offset serial_type,
      (¬(serial_type = 1 ∨ serial_type = 2 ∨ serial_type = 4 ∨
          serial_type = 6 ∨ serial_type = 7) →
        ∃ v n, parse_serial_type data offset serial_type = .ok (v, n)) ∧
      ((serial_type = 1 ∨ serial_type = 2 ∨ serial_type = 4 ∨
          serial_type = 6 ∨ serial_type = 7) →
        ((∃ v n, parse_serial_type data offset serial_type = .ok (v, n)) ↔
          offset + serialLength serial_type ≤ data.length)) ∧
      (13 ≤ serial_type ∧ serial_type % 2 = 1 →
        parse_serial_type data offset serial_type =
          .ok (.text (decodeUtf8Replace (pySlice data offset ((serial_type - 13) / 2))),
            (serial_type - 13) / 2)) := by
  intro data o st
  refine ⟨?_, ?_, ?_⟩
  · intro h
    by_cases hb : 12 ≤ st ∧ st % 2 = 0
    · unfold parse_serial_type
      rw [if_pos hb]
      exact ⟨_, _, rfl⟩
    · by_cases ht : 13 ≤ st ∧ st % 2 = 1
      · unfold parse_serial_type
        rw [if_neg hb, if_pos ht]
        exact ⟨_, _, rfl⟩
      · have hst : st ≤ 11 := by omega
        interval_cases st <;> first | exact ⟨_, _, rfl⟩ | tauto
  · intro h
    rcases h with rfl | rfl | rfl | rfl | rfl
    · exact structBranch_ok_iff data o 1 (fun s => .int (toSigned 8 (beNat s))) (by omega)
    · exact structBranch_ok_iff data o 2 (fun s => .int (toSigned 16 (beNat s))) (by omega)
    · exact structBranch_ok_iff data o 4 (fun s => .int (toSigned 32 (beNat s))) (by omega)
    · exact structBranch_ok_iff data o 8 (fun s => .int (toSigned 64 (beNat s))) (by omega)
    · exact structBranch_ok_iff data o 8 (fun s => .float s) (by omega)
  · rintro ⟨h13, hodd⟩
    unfold parse_serial_type
    rw [if_neg (by omega), if_pos ⟨h13, hodd⟩]

/-- Witness for C4: invalid UTF-8 text of declared length 1 decodes to
one replacement character instead of failing. -/
theorem c4_serial_decoder_totality_witness :
    (13 ≤ 15 ∧ 15 % 2 = 1) ∧
      parse_serial_type [0xFF] 0 15 = .ok (.text [0xFFFD], 1) := by
  refine ⟨by omega, ?_⟩
  have h := (c4_serial_decoder_totality [0xFF] 0 15).2.2 (by omega)
  exact h.trans (by decide)

theorem pySlice_zero_length_self (d : Bytes) (L : Nat) (h : d.length = L) :
    pySlice d 0 L = d := by
  subst h
  simp [pySlice]

theorem encodeBE_length (w v : Nat) : (encodeBE w v).length = w := by
  induction w generalizing v with
  | zero => rfl
  | succ w ih => simp [encodeBE, ih]

theorem beNat_append_singleton (bs : Bytes) (b : Nat) :
    beNat (bs ++ [b]) = beNat bs * 256 + b := by
  unfold beNat
  rw [List.foldl_append]
  rfl

theorem beNat_encodeBE (w v : Nat) (h : v < 2 ^ (8 * w)) : beNat (encodeBE w v) = v := by
  induction w generalizing v with
  | zero =>
    norm_num at h
    subst h
    rfl
  | succ w ih =>
    have hlt : v / 256 < 2 ^ (8 * w) := by
      have h2 : (2 : Nat) ^ (8 * (w + 1)) = 2 ^ (8 * w) * 256 := by
        rw [show 8 * (w + 1) = 8 * w + 8 by ring, pow_add]
        norm_num
      omega
    show beNat (encodeBE w (v / 256) ++ [v % 256]) = v
    rw [beNat_append_singleton, ih (v / 256) hlt]
    omega

theorem emod_toNat_lt_pow (i : Int) (e : Nat) : (i % ((2 : Int) ^ e)).toNat < 2 ^ e := by
  have hpos : (0 : Int) < 2 ^ e := by positivity
  have h1 := Int.emod_nonneg i (ne_of_gt hpos)
  have h2 := Int.emod_lt_of_pos i hpos
  have hcast : ((2 : Nat) ^ e : Int) = (2 : Int) ^ e := by push_cast; rfl
  omega

theorem toSigned_emod (w : Nat) (i : Int) (hw : 1 ≤ w)
    (h1 : -(2 ^ (w - 1) : Int) ≤ i) (h2 : i < 2 ^ (w - 1)) :
    toSigned w (i % ((2 : Int) ^ w)).toNat = i := by
  have hM : (2 : Int) ^ w = 2 ^ (w - 1) * 2 := by
    conv_lhs => rw [show w = w - 1 + 1 by omega]
    rw [pow_succ]
  have hP : (0 : Int) < 2 ^ (w - 1) := by positivity
  have hcast : ((2 : Nat) ^ (w - 1) : Int) = (2 : Int) ^ (w - 1) := by push_cast; rfl
  have hcastw : ((2 : Nat) ^ w : Int) = (2 : Int) ^ w := by push_cast; rfl
  unfold toSigned
  rcases le_or_lt 0 i with hi | hi
  · have hmod : i % ((2 : Int) ^ w) = i := Int.emod_eq_of_lt hi (by omega)
    rw [hmod, if_pos (by omega)]
    omega
  · have hmod : i % ((2 : Int) ^ w) = i + 2 ^ w := by
      have h3 : (i + 2 ^ w) % ((2 : Int) ^ w) = i % ((2 : Int) ^ w) := by
        have h5 := Int.add_mul_emod_self_left i ((2 : Int) ^ w) 1
        rwa [mul_one] at h5
      have h4 : (i + 2 ^ w) % ((2 : Int) ^ w) = i + 2 ^ w := Int.emod_eq_of_lt (by omega) (by omega)
      omega
    rw [hmod, if_neg (by omega)]
    omega

/-- Decoding the two's-complement big-endian encoding of an in-range
integer recovers the integer. -/
theorem toSigned_beNat_encodeBE (k : Nat) (i : Int) (hk : 1 ≤ k)
    (h1 : -(2 ^ (8 * k - 1) : Int) ≤ i) (h2 : i < 2 ^ (8 * k - 1)) :
    toSigned (8 * k) (beNat (encodeBE k (i % ((2 : Int) ^ (8 * k))).toNat)) = i := by
  rw [beNat_encodeBE _ _ (emod_toNat_lt_pow i (8 * k))]
  exact toSigned_emod (8 * k) i (by omega) h1 h2

theorem utf8Run_start_cons (b : Nat) (rest : List Nat) :
    utf8Run .start (b :: rest) = (utf8Start b).1 ++ utf8Run (utf8Start b).2 rest := rfl

theorem utf8Run_need_cons (k acc lo hi b : Nat) (rest : List Nat) :
    utf8Run (.need k acc lo hi) (b :: rest) =
      if lo ≤ b ∧ b ≤ hi then
        if k = 1 then (acc * 64 + (b - 0x80)) :: utf8Run .start rest
        else utf8Run (.need (k - 1) (acc * 64 + (b - 0x80)) 0x80 0xBF) rest
      else 0xFFFD :: ((utf8Start b).1 ++ utf8Run (utf8Start b).2 rest) := rfl

/-- The decoder consumes the UTF-8 encoding of one scalar value as one
code point and resumes at a sequence boundary. -/
theorem utf8Run_encodeChar (c : Nat) (hc : isScalar c = true) (bs : List Nat) :
    utf8Run .start (encodeChar c ++ bs) = c :: utf8Run .start bs := by
  have hsc : c < 0x110000 ∧ ¬(0xD800 ≤ c ∧ c ≤ 0xDFFF) := of_decide_eq_true hc
  unfold encodeChar
  split_ifs with h1 h2 h3
  · show utf8Run .start (c :: bs) = c :: utf8Run .start bs
    rw [utf8Run_start_cons]
    unfold utf8Start
    rw [if_pos h1]
    rfl
  · show utf8Run .start ((0xC0 + c / 64) :: (0x80 + c % 64) :: bs) = c :: utf8Run .start bs
    rw [utf8Run_start_cons]
    have e0 : utf8Start (0xC0 + c / 64) = ([], .need 1 (0xC0 + c / 64 - 0xC0) 0x80 0xBF) := by
      unfold utf8Start
      rw [if_neg (by omega), if_pos (by omega)]
    rw [e0]
    dsimp only
    rw [List.nil_append, utf8Run_need_cons, if_pos (by omega), if_pos rfl]
    rw [show (0xC0 + c / 64 - 0xC0) * 64 + (0x80 + c % 64 - 0x80) = c by omega]
  · show utf8Run .start
        ((0xE0 + c / 4096) :: (0x80 + c / 64 % 64) :: (0x80 + c % 64) :: bs) =
        c :: utf8Run .start bs
    rw [utf8Run_start_cons]
    have e0 : utf8Start (0xE0 + c / 4096) =
        ([], .need 2 (0xE0 + c / 4096 - 0xE0)
          (if 0xE0 + c / 4096 = 0xE0 then 0xA0 else 0x80)
          (if 0xE0 + c / 4096 = 0xED then 0x9F else 0xBF)) := by
      unfold utf8Start
      rw [if_neg (by omega), if_neg (by omega), if_pos (by omega)]
    rw [e0]
    dsimp only
    rw [List.nil_append, utf8Run_need_cons]
    rw [if_pos (by constructor <;> split_ifs <;> omega), if_neg (by omega)]
    rw [utf8Run_need_cons, if_pos (by omega), if_pos rfl]
    rw [show ((0xE0 + c / 4096 - 0xE0) * 64 + (0x80 + c / 64 % 64 - 0x80)) * 64 +
        (0x80 + c % 64 - 0x80) = c by omega]
  · show utf8Run .start
        ((0xF0 + c / 262144) :: (0x80 + c / 4096 % 64) :: (0x80 + c / 64 % 64) ::
          (0x80 + c % 64) :: bs) =
        c :: utf8Run .start bs
    rw [utf8Run_start_cons]
    have e0 : utf8Start (0xF0 + c / 262144) =
        ([], .need 3 (0xF0 + c / 262144 - 0xF0)
          (if 0xF0 + c / 262144 = 0xF0 then 0x90 else 0x80)
          (if 0xF0 + c / 262144 = 0xF4 then 0x8F else 0xBF)) := by
      unfold utf8Start
      rw [if_neg (by omega), if_neg (by omega), if_neg (by omega), if_pos (by omega)]
    rw [e0]
    dsimp only
    rw [List.nil_append, utf8Run_need_cons]
    rw [if_pos (by constructor <;> split_ifs <;> omega), if_neg (by omega)]
    rw [utf8Run_need_cons, if_pos (by omega), if_neg (by omega)]
    rw [utf8Run_need_cons, if_pos (by omega), if_pos rfl]
    rw [show (((0xF0 + c / 262144 - 0xF0) * 64 + (0x80 + c / 4096 % 64 - 0x80)) * 64 +
        (0x80 + c / 64 % 64 - 0x80)) * 64 + (0x80 + c % 64 - 0x80) = c by omega]

/-- Decoding with replacement is a left inverse of UTF-8 encoding on
scalar values. -/
theorem decode_encodeUtf8 (cps : List Nat) (h : cps.all isScalar = true) :
    decodeUtf8Replace (encodeUtf8 cps) = cps := by
  unfold decodeUtf8Replace
  induction cps with
  | nil => rfl
  | cons c cs ih =>
    simp only [List.all_cons, Bool.and_eq_true] at h
    show utf8Run .start (encodeChar c ++ encodeUtf8 cs) = c :: cs
    rw [utf8Run_encodeChar c h.1]
    exact congrArg (c :: ·) (ih h.2)

/-- The exact-width branches of `parse_serial_type` applied to a
freshly encoded `k`-byte string. -/
theorem structBranch_encodeBE (k u : Nat) (f : Bytes → Value) :
    (if (pySlice (encodeBE k u) 0 k).length = k
      then (.ok (f (pySlice (encodeBE k u) 0 k), k) : Except PyErr (Value × Nat))
      else .error .structError) = .ok (f (encodeBE k u), k) := by
  rw [pySlice_zero_length_self (encodeBE k u) k (encodeBE_length k u),
    if_pos (encodeBE_length k u)]

/-- The `int.from_bytes` branches of `parse_serial_type` applied to a
freshly encoded `k`-byte string. -/
theorem fromBytes_encodeBE (k u : Nat) :
    intFromBytesSigned (pySlice (encodeBE k u) 0 k) = toSigned (8 * k) (beNat (encodeBE k u)) := by
  rw [pySlice_zero_length_self (encodeBE k u) k (encodeBE_length k u)]
  unfold intFromBytesSigned
  rw [encodeBE_length]

/-- C9: for every serial-type code in `{0..9} ∪ {even ≥ 12} ∪ {odd ≥ 13}`
and every value of the corresponding type (`wellTyped`), decoding the
encoded on-disk byte form recovers the value and consumes the declared
length. -/
theorem c9_serial_roundtrip (c : Nat) (v : Value) (hw : wellTyped c v = true) :
    parse_serial_type (serialEncode c v) 0 c = .ok (v, serialLength c) := by
  unfold wellTyped at hw
  split_ifs at hw with hblob htext h0 h8 h9 hint h7
  · -- blob codes: even, at least 12
    rcases v with _ | i | raw | bs | cps <;> try exact Bool.noConfusion hw
    simp only [Bool.and_eq_true, decide_eq_true_eq] at hw
    obtain ⟨hc, -⟩ := hw
    show parse_serial_type bs 0 c = .ok (.blob bs, serialLength c)
    have hsl : serialLength c = (c - 12) / 2 := by
      unfold serialLength
      rw [if_pos hblob]
    unfold parse_serial_type
    rw [if_pos hblob]
    dsimp only
    rw [hsl, show (c - 12) / 2 = bs.length by omega,
      pySlice_zero_length_self bs bs.length rfl]
  · -- text codes: odd, at least 13
    rcases v with _ | i | raw | bs | cps <;> try exact Bool.noConfusion hw
    simp only [Bool.and_eq_true, decide_eq_true_eq] at hw
    obtain ⟨hc, hall⟩ := hw
    show parse_serial_type (encodeUtf8 cps) 0 c = .ok (.text cps, serialLength c)
    have hsl : serialLength c = (c - 13) / 2 := by
      unfold serialLength
      rw [if_neg (by omega), if_pos htext]
    unfold parse_serial_type
    rw [if_neg (by omega), if_pos htext]
    dsimp only
    rw [hsl, show (c - 13) / 2 = (encodeUtf8 cps).length by omega,
      pySlice_zero_length_self (encodeUtf8 cps) (encodeUtf8 cps).length rfl,
      decode_encodeUtf8 cps hall]
  · -- code 0: null
    have hv : v = .null := of_decide_eq_true hw
    subst hv
    subst h0
    decide
  · -- code 8: constant 0
    have hv : v = .int 0 := of_decide_eq_true hw
    subst hv
    subst h8
    decide
  · -- code 9: constant 1
    have hv : v = .int 1 := of_decide_eq_true hw
    subst hv
    subst h9
    decide
  · -- signed integer codes 1..6
    rcases v with _ | i | raw | bs | cps <;> try exact Bool.noConfusion hw
    replace hw : -(2 ^ (8 * serialLength c - 1) : Int) ≤ i ∧
        i < 2 ^ (8 * serialLength c - 1) := of_decide_eq_true hw
    rcases hint with rfl | rfl | rfl | rfl | rfl | rfl
    · refine (structBranch_encodeBE 1 (i % ((2 : Int) ^ (8 * 1))).toNat
        (fun s => .int (toSigned 8 (beNat s)))).trans ?_
      show (Except.ok (Value.int (toSigned (8 * 1)
          (beNat (encodeBE 1 (i % ((2 : Int) ^ (8 * 1))).toNat))), 1) :
          Except PyErr (Value × Nat)) = _
      rw [toSigned_beNat_encodeBE 1 i (by norm_num) hw.1 hw.2]
      rfl
    · refine (structBranch_encodeBE 2 (i % ((2 : Int) ^ (8 * 2))).toNat
        (fun s => .int (toSigned 16 (beNat s)))).trans ?_
      show (Except.ok (Value.int (toSigned (8 * 2)
          (beNat (encodeBE 2 (i % ((2 : Int) ^ (8 * 2))).toNat))), 2) :
          Except PyErr (Value × Nat)) = _
      rw [toSigned_beNat_encodeBE 2 i (by norm_num) hw.1 hw.2]
      rfl
    · refine Eq.trans ?_ (congrArg (fun z => (Except.ok (Value.int z, 3) :
          Except PyErr (Value × Nat)))
        (toSigned_beNat_encodeBE 3 i (by norm_num) hw.1 hw.2))
      exact congrArg (fun z => (Except.ok (Value.int z, 3) : Except PyErr (Value × Nat)))
        (fromBytes_encodeBE 3 (i % ((2 : Int) ^ (8 * 3))).toNat)
    · refine (structBranch_encodeBE 4 (i % ((2 : Int) ^ (8 * 4))).toNat
        (fun s => .int (toSigned 32 (beNat s)))).trans ?_
      show (Except.ok (Value.int (toSigned (8 * 4)
          (beNat (encodeBE 4 (i % ((2 : Int) ^ (8 * 4))).toNat))), 4) :
          Except PyErr (Value × Nat)) = _
      rw [toSigned_beNat_encodeBE 4 i (by norm_num) hw.1 hw.2]
      rfl
    · refine Eq.trans ?_ (congrArg (fun z => (Except.ok (Value.int z, 6) :
          Except PyErr (Value × Nat)))
        (toSigned_beNat_encodeBE 6 i (by norm_num) hw.1 hw.2))
      exact congrArg (fun z => (Except.ok (Value.int z, 6) : Except PyErr (Value × Nat)))
        (fromBytes_encodeBE 6 (i % ((2 : Int) ^ (8 * 6))).toNat)
    · refine (structBranch_encodeBE 8 (i % ((2 : Int) ^ (8 * 8))).toNat
        (fun s => .int (toSigned 64 (beNat s)))).trans ?_
      show (Except.ok (Value.int (toSigned (8 * 8)
          (beNat (encodeBE 8 (i % ((2 : Int) ^ (8 * 8))).toNat))), 8) :
          Except PyErr (Value × Nat)) = _
      rw [toSigned_beNat_encodeBE 8 i (by norm_num) hw.1 hw.2]
      rfl
  · -- code 7: double, kept as its 8 raw bytes
    rcases v with _ | i | raw | bs | cps <;> try exact Bool.noConfusion hw
    simp only [Bool.and_eq_true, decide_eq_true_eq] at hw
    obtain ⟨hlen, -⟩ := hw
    subst h7
    show (if (pySlice raw 0 8).length = 8
        then (.ok (.float (pySlice raw 0 8), 8) : Except PyErr (Value × Nat))
        else .error .structError) = .ok (.float raw, serialLength 7)
    rw [pySlice_zero_length_self raw 8 hlen, if_pos hlen]
    rfl

/-- Witness for C9: the text value U+2603 under code 19 (three UTF-8
bytes) round-trips. -/
theorem c9_serial_roundtrip_witness :
    wellTyped 19 (.text [0x2603]) = true ∧
      parse_serial_type (serialEncode 19 (.text [0x2603])) 0 19 =
        .ok (.text [0x2603], serialLength 19) :=
  ⟨by decide, c9_serial_roundtrip 19 (.text [0x2603]) (by decide)⟩

theorem agreeOutside_getD (d₁ d₂ : Bytes) (a b : Nat) (h : agreeOutside d₁ d₂ a b) :
    ∀ k, k < a ∨ b ≤ k → d₁.getD k 0 = d₂.getD k 0 := by
  intro k hk
  rcases Nat.lt_or_ge k d₁.length with hlt | hge
  · exact h.2 k hlt hk
  · have hge₂ : d₂.length ≤ k := by
      have := h.1
      omega
    rw [List.getD_eq_default _ _ hge, List.getD_eq_default _ _ hge₂]

/-- A successful varint read depends only on the `n` bytes consumed. -/
theorem read_varintLoop_frame_ok (d₁ d₂ : Bytes) (o : Nat) (hlen : d₁.length = d₂.length) :
    ∀ k i value v n, k + i = 9 →
      read_varintLoop d₁ o k i value = .ok (v, n) →
      (∀ j, o + i ≤ j → j < o + n → d₁.getD j 0 = d₂.getD j 0) →
      read_varintLoop d₂ o k i value = .ok (v, n) := by
  intro k
  induction k with
  | zero =>
    intro i value v n hki h hag
    simp only [read_varintLoop, Except.ok.injEq, Prod.mk.injEq] at h ⊢
    exact h
  | succ k ih =>
    intro i value v n hki h hag
    have hb := read_varintLoop_ok_bounds d₁ o (k + 1) i value v n hki h
    have hin : i < n := by omega
    simp only [read_varintLoop] at h ⊢
    by_cases hob : d₁.length ≤ o + i
    · rw [if_pos hob] at h
      exact absurd h (by simp)
    · rw [if_neg hob] at h
      rw [if_neg (show ¬d₂.length ≤ o + i by omega)]
      have hbyte : d₂.getD (o + i) 0 = d₁.getD (o + i) 0 :=
        (hag (o + i) (by omega) (by omega)).symm
      rw [hbyte]
      by_cases hlt : d₁.getD (o + i) 0 < 0x80
      · rw [if_pos hlt] at h ⊢
        exact h
      · rw [if_neg hlt] at h ⊢
        exact ih (i + 1) _ v n (by omega) h (fun j hj1 hj2 => hag j (by omega) hj2)

/-- A failing varint read depends only on the at most nine bytes it
inspects. -/
theorem read_varintLoop_frame_err (d₁ d₂ : Bytes) (o : Nat) (hlen : d₁.length = d₂.length)
    (hag : ∀ j, o ≤ j → j < o + 9 → d₁.getD j 0 = d₂.getD j 0) :
    ∀ k i value e, k + i = 9 →
      read_varintLoop d₁ o k i value = .error e →
      read_varintLoop d₂ o k i value = .error e := by
  intro k
  induction k with
  | zero =>
    intro i value e hki h
    simp only [read_varintLoop] at h
    exact absurd h (by simp)
  | succ k ih =>
    intro i value e hki h
    simp only [read_varintLoop] at h ⊢
    by_cases hob : d₁.length ≤ o + i
    · rw [if_pos hob] at h
      rw [if_pos (show d₂.length ≤ o + i by omega)]
      exact h
    · rw [if_neg hob] at h
      rw [if_neg (show ¬d₂.length ≤ o + i by omega)]
      have hbyte : d₂.getD (o + i) 0 = d₁.getD (o + i) 0 :=
        (hag (o + i) (by omega) (by omega)).symm
      rw [hbyte]
      by_cases hlt : d₁.getD (o + i) 0 < 0x80
      · rw [if_pos hlt] at h
        exact absurd h (by simp)
      · rw [if_neg hlt] at h
        rw [if_neg hlt]
        exact ih (i + 1) _ e (by omega) h

theorem read_varint_frame_ok (d₁ d₂ : Bytes) (o v n : Nat) (hlen : d₁.length = d₂.length)
    (h : read_varint d₁ o = .ok (v, n))
    (hag : ∀ j, o ≤ j → j < o + n → d₁.getD j 0 = d₂.getD j 0) :
    read_varint d₂ o = .ok (v, n) :=
  read_varintLoop_frame_ok d₁ d₂ o hlen 9 0 0 v n (by omega) h
    (fun j h1 h2 => hag j (by omega) h2)

theorem read_varint_frame_err (d₁ d₂ : Bytes) (o : Nat) (e : PyErr) (hlen : d₁.length = d₂.length)
    (h : read_varint d₁ o = .error e)
    (hag : ∀ j, o ≤ j → j < o + 9 → d₁.getD j 0 = d₂.getD j 0) :
    read_varint d₂ o = .error e :=
  read_varintLoop_frame_err d₁ d₂ o hlen hag 9 0 0 e (by omega) h

/-- A slice depends only on the bytes in its range. -/
theorem pySlice_frame (d₁ d₂ : Bytes) (o L : Nat) (hlen : d₁.length = d₂.length)
    (hag : ∀ j, o ≤ j → j < o + L → d₁.getD j 0 = d₂.getD j 0) :
    pySlice d₁ o L = pySlice d₂ o L := by
  apply List.ext_getElem?
  intro m
  simp only [pySlice, List.getElem?_take, List.getElem?_drop]
  split
  · rename_i hm
    rcases Nat.lt_or_ge (o + m) d₁.length with hk | hk
    · rw [List.getElem?_eq_getElem hk, List.getElem?_eq_getElem (show o + m < d₂.length by omega)]
      have hval := hag (o + m) (by omega) (by omega)
      rw [List.getD_eq_getElem d₁ 0 hk, List.getD_eq_getElem d₂ 0 (by omega)] at hval
      rw [hval]
    · rw [List.getElem?_eq_none hk, List.getElem?_eq_none (show d₂.length ≤ o + m by omega)]
  · rfl

theorem tailEnd_ge (d : Bytes) (o pl : Nat) : o ≤ tailEnd d o pl := by
  unfold tailEnd
  split <;> omega

/-- The rowid-and-payload tail of a cell read depends only on the bytes
up to `tailEnd`. -/
theorem parseCellTail_frame (d₁ d₂ : Bytes) (o pl : Nat) (hlen : d₁.length = d₂.length)
    (hag : ∀ j, o ≤ j → j < tailEnd d₁ o pl → d₁.getD j 0 = d₂.getD j 0) :
    parseCellTail d₂ o pl = parseCellTail d₁ o pl := by
  cases h : read_varint d₁ o with
  | error e =>
    have hte : tailEnd d₁ o pl = o + 9 := by
      simp only [tailEnd, h]
    have h' : read_varint d₂ o = .error e :=
      read_varint_frame_err d₁ d₂ o e hlen h (fun j hj1 hj2 => hag j hj1 (by omega))
    simp only [parseCellTail, h, h']
  | ok vn =>
    obtain ⟨rid, n⟩ := vn
    have hte : tailEnd d₁ o pl = o + n + pl := by
      simp only [tailEnd, h]
    have h' : read_varint d₂ o = .ok (rid, n) :=
      read_varint_frame_ok d₁ d₂ o rid n hlen h (fun j hj1 hj2 => hag j hj1 (by omega))
    simp only [parseCellTail, h, h']
    rw [pySlice_frame d₂ d₁ (o + n) pl hlen.symm
      (fun j hj1 hj2 => (hag j (by omega) (by omega)).symm)]

/-- Reading one cell depends only on the header-agreed page shape and
the bytes in `[cell_pointer, cellEnd)`: corruption elsewhere cannot
change the cell's result. -/
theorem parseCell_frame (d₁ d₂ : Bytes) (pt p a b : Nat)
    (hag : agreeOutside d₁ d₂ a b)
    (hsep : cellEnd d₁ pt p ≤ a ∨ b ≤ p) :
    parseCell d₂ pt p = parseCell d₁ pt p := by
  have hlen := hag.1
  have hB := agreeOutside_getD d₁ d₂ a b hag
  have hagI : ∀ j, p ≤ j → j < cellEnd d₁ pt p → d₁.getD j 0 = d₂.getD j 0 := by
    intro j h1 h2
    rcases hsep with hs | hs
    · exact hB j (Or.inl (by omega))
    · exact hB j (Or.inr (by omega))
  cases h1 : read_varint d₁ p with
  | error e =>
    have hce : cellEnd d₁ pt p = p + 9 := by
      simp only [cellEnd, h1]
    have h1' : read_varint d₂ p = .error e :=
      read_varint_frame_err d₁ d₂ p e hlen h1 (fun j hj1 hj2 => hagI j hj1 (by omega))
    simp only [parseCell, h1, h1']
  | ok v1 =>
    obtain ⟨pl, n1⟩ := v1
    obtain ⟨hn1a, hn1b⟩ := read_varint_ok_bounds d₁ p pl n1 h1
    by_cases hpt : pt = 0x05
    · cases h2 : read_varint d₁ (p + n1) with
      | error e =>
        have hce : cellEnd d₁ pt p = p + n1 + 9 := by
          simp only [cellEnd, h1, if_pos hpt, h2]
        have h1' : read_varint d₂ p = .ok (pl, n1) :=
          read_varint_frame_ok d₁ d₂ p pl n1 hlen h1 (fun j hj1 hj2 => hagI j hj1 (by omega))
        have h2' : read_varint d₂ (p + n1) = .error e :=
          read_varint_frame_err d₁ d₂ (p + n1) e hlen h2
            (fun j hj1 hj2 => hagI j (by omega) (by omega))
        simp only [parseCell, h1, h1', if_pos hpt, h2, h2']
      | ok v2 =>
        obtain ⟨lc, n2⟩ := v2
        obtain ⟨hn2a, hn2b⟩ := read_varint_ok_bounds d₁ (p + n1) lc n2 h2
        have hce : cellEnd d₁ pt p = tailEnd d₁ (p + n1 + n2) pl := by
          simp only [cellEnd, h1, if_pos hpt, h2]
        have htg := tailEnd_ge d₁ (p + n1 + n2) pl
        have h1' : read_varint d₂ p = .ok (pl, n1) :=
          read_varint_frame_ok d₁ d₂ p pl n1 hlen h1 (fun j hj1 hj2 => hagI j hj1 (by omega))
        have h2' : read_varint d₂ (p + n1) = .ok (lc, n2) :=
          read_varint_frame_ok d₁ d₂ (p + n1) lc n2 hlen h2
            (fun j hj1 hj2 => hagI j (by omega) (by omega))
        simp only [parseCell, h1, h1', if_pos hpt, h2, h2']
        exact parseCellTail_frame d₁ d₂ (p + n1 + n2) pl hlen
          (fun j hj1 hj2 => hagI j (by omega) (by omega))
    · have hce : cellEnd d₁ pt p = tailEnd d₁ (p + n1) pl := by
        simp only [cellEnd, h1, if_neg hpt]
      have htg := tailEnd_ge d₁ (p + n1) pl
      have h1' : read_varint d₂ p = .ok (pl, n1) :=
        read_varint_frame_ok d₁ d₂ p pl n1 hlen h1 (fun j hj1 hj2 => hagI j hj1 (by omega))
      simp only [parseCell, h1, h1', if_neg hpt]
      exact parseCellTail_frame d₁ d₂ (p + n1) pl hlen
        (fun j hj1 hj2 => hagI j (by omega) (by omega))

theorem filterMap_congr_mem {α β : Type} (f g : α → Option β) :
    ∀ l : List α, (∀ x ∈ l, f x = g x) → l.filterMap f = l.filterMap g := by
  intro l
  induction l with
  | nil => intro _; rfl
  | cons x xs ih =>
    intro h
    rw [List.filterMap_cons, List.filterMap_cons, h x (by simp),
      ih (fun y hy => h y (by simp [hy]))]

/-- The cell-pointer array read depends only on the page length and the
bytes below `header_size + 2 * num_cells`. -/
theorem collectPointers_frame (d₁ d₂ : Bytes) (hs nc a b : Nat)
    (hag : agreeOutside d₁ d₂ a b) (hbound : hs + 2 * nc ≤ a) :
    collectPointers d₂ hs nc = collectPointers d₁ hs nc := by
  have hlen := hag.1
  have hB := agreeOutside_getD d₁ d₂ a b hag
  unfold collectPointers
  apply filterMap_congr_mem
  intro i hi
  have hi' : i < nc := List.mem_range.mp hi
  have hsl : pySlice d₂ (hs + i * 2) 2 = pySlice d₁ (hs + i * 2) 2 :=
    pySlice_frame d₂ d₁ (hs + i * 2) 2 hlen.symm
      (fun j hj1 hj2 => (hB j (Or.inl (by omega))).symm)
  dsimp only
  rw [← hlen, hsl]

theorem headD_eq_getD (l : List Nat) : l.headD 0 = l.getD 0 0 := by
  cases l <;> rfl

/-- On a non-trivial table page, `parsePageData` is the filterMap of
`emitCell` over the cell pointers. -/
theorem parsePageData_shape (pd : Bytes)
    (htype : pageType pd = 0x0D ∨ pageType pd = 0x05) (hlen5 : 5 ≤ pd.length) :
    parsePageData pd = .ok ((pagePointers pd).filterMap (emitCell pd (pageType pd))) := by
  unfold parsePageData
  rw [if_neg (show ¬pd.length = 0 by omega)]
  dsimp only
  rw [if_neg (show ¬¬(pd.headD 0 = 0x0D ∨ pd.headD 0 = 0x05) from not_not_intro htype)]
  rw [if_neg (show ¬(pySlice pd 3 2).length ≠ 2 from
    fun hne => hne (by rw [pySlice_length]; omega))]
  rfl

/-- C6: corrupting the bytes of exactly one cell on a page — an
interval that leaves the page header, the cell-pointer array and every
other cell's read extent untouched — preserves the page shape and every
other cell's emitted record: at most cell `j`'s tuple changes. -/
theorem c6_single_cell_corruption_isolated
    (page₁ page₂ : Bytes) (a b j : Nat)
    (hag : agreeOutside page₁ page₂ a b)
    (htype : pageType page₁ = 0x0D ∨ pageType page₁ = 0x05)
    (hlen5 : 5 ≤ page₁.length)
    (harr : headerSize page₁ + 2 * numCells page₁ ≤ a)
    (hcells : ∀ i, (hi : i < (pagePointers page₁).length) → i ≠ j →
      cellEnd page₁ (pageType page₁) ((pagePointers page₁).get ⟨i, hi⟩) ≤ a ∨
        b ≤ (pagePointers page₁).get ⟨i, hi⟩) :
    parsePageData page₁ =
        .ok ((pagePointers page₁).filterMap (emitCell page₁ (pageType page₁))) ∧
      parsePageData page₂ =
        .ok ((pagePointers page₁).filterMap (emitCell page₂ (pageType page₁))) ∧
      ∀ i, (hi : i < (pagePointers page₁).length) → i ≠ j →
        emitCell page₂ (pageType page₁) ((pagePointers page₁).get ⟨i, hi⟩) =
          emitCell page₁ (pageType page₁) ((pagePointers page₁).get ⟨i, hi⟩) := by
  have hlen := hag.1
  have hB := agreeOutside_getD page₁ page₂ a b hag
  have ha8 : 8 ≤ a := by
    unfold headerSize at harr
    split_ifs at harr <;> omega
  have htype2 : pageType page₂ = pageType page₁ := by
    unfold pageType
    rw [headD_eq_getD, headD_eq_getD]
    exact (hB 0 (Or.inl (by omega))).symm
  have hslot : pySlice page₂ 3 2 = pySlice page₁ 3 2 :=
    pySlice_frame page₂ page₁ 3 2 hlen.symm
      (fun k hk1 hk2 => (hB k (Or.inl (by omega))).symm)
  have hnc : numCells page₂ = numCells page₁ := by
    unfold numCells
    rw [hslot]
  have hhs : headerSize page₂ = headerSize page₁ := by
    unfold headerSize
    rw [htype2]
  have hptr : pagePointers page₂ = pagePointers page₁ := by
    unfold pagePointers
    rw [hhs, hnc]
    exact collectPointers_frame page₁ page₂ (headerSize page₁) (numCells page₁) a b hag harr
  refine ⟨parsePageData_shape page₁ htype hlen5, ?_, ?_⟩
  · have h2 := parsePageData_shape page₂ (by rw [htype2]; exact htype) (by omega)
    rw [h2, hptr, htype2]
  · intro i hi hij
    unfold emitCell
    rw [parseCell_frame page₁ page₂ (pageType page₁) ((pagePointers page₁).get ⟨i, hi⟩) a b
      hag (hcells i hi hij)]

/-- Witness for C6: corrupting the body byte of cell 1 on the two-cell
page changes that cell's tuple but leaves cell 0's emitted record
untouched. -/
theorem c6_single_cell_corruption_isolated_witness :
    parsePageData twoCellPageCorrupt = .ok [[Value.int 5], [Value.int (-56)]] ∧
      emitCell twoCellPageCorrupt (pageType twoCellPage)
          ((pagePointers twoCellPage).get ⟨0, by decide⟩) =
        emitCell twoCellPage (pageType twoCellPage)
          ((pagePointers twoCellPage).get ⟨0, by decide⟩) := by
  constructor
  · decide
  · exact (c6_single_cell_corruption_isolated twoCellPage twoCellPageCorrupt 17 22 1
      (by decide) (Or.inl (by decide)) (by decide) (by decide)
      (by
        intro i hi hij
        have hi2 : i < 2 := hi
        interval_cases i
        · rw [show (pagePointers twoCellPage).get ⟨0, hi⟩ = 12 from rfl]
          exact Or.inl (by decide)
        · exact absurd rfl hij)).2.2 0 (by decide) (by decide)

end SqliteExtract
